import Mathlib

/-!
# ROX-2X: rotary encoder decoder and frequency store

A shallow embedding of `Encoder2.cpp` (interrupt driven quadrature decoder) and
`eeprom_2m.cpp` (validated persistent list of tuned frequencies), with the
properties of the specification stated over it.

Conventions of the embedding:

* C `int` is 32 bit two's complement (Teensy / ARM). Values are kept as `Int`;
  `rot_count++` and `rot_count--` go through `wrapInt32`.
* `uint32_t` values are `Nat`; the bytes written by `EEPROM.put` are reduced
  with `% 256`, so a stored word is the value modulo `2 ^ 32`.
* `digitalRead(pin)` is an input of the environment: each edge handler takes the
  sampled level as an argument.
-/

namespace Rox2x

/-! ## Machine integers -/

/-- Smallest value of a 32 bit `int`. -/
def INT_MIN : Int := -2147483648

/-- Largest value of a 32 bit `int`. -/
def INT_MAX : Int := 2147483647

/-- Two's complement reduction of an integer to the range of a 32 bit `int`. -/
def wrapInt32 (x : Int) : Int := (x + 2147483648) % 4294967296 - 2147483648

/-! ## Encoder2 (Encoder2.h, Encoder2.cpp) -/

/-- Data members of `class Encoder2` that the decoder logic uses (the two ISR
pointers `_isr_a`, `_isr_b` are only read by `begin`). -/
structure Encoder2 where
  rot_count : Int
  rot_a_val : Int
  rot_b_val : Int
  rot_state : Int
  pin_a : Int
  pin_b : Int
  deriving DecidableEq

namespace Encoder2

/-- Constructor `Encoder2::Encoder2(pin_a_a, pin_b_a, isr_a, isr_b)`. -/
def new (pin_a_a pin_b_a : Int) : Encoder2 :=
  { rot_count := 0, rot_a_val := 1, rot_b_val := 1, rot_state := 0,
    pin_a := pin_a_a, pin_b := pin_b_a }

/-- The method `Encoder2::update_rot`: the `switch (rot_state)` of the source, one
branch per `case`; a state value with no `case` falls through the switch. -/
def update_rot (e : Encoder2) : Encoder2 :=
  if e.rot_state = 0 then
    -- Idle state, look for direction
    let e1 := if e.rot_b_val = 0 then { e with rot_state := 1 } else e
    if e1.rot_a_val = 0 then { e1 with rot_state := 11 } else e1
  else if e.rot_state = 1 then
    -- CW, wait for A low while B is low
    if e.rot_b_val = 0 then
      if e.rot_a_val = 0 then
        { e with rot_count := wrapInt32 (e.rot_count + 1), rot_state := 2 }
      else e
    else
      if e.rot_a_val ≠ 0 then { e with rot_state := 0 } else e
  else if e.rot_state = 2 then
    -- CW, wait for B high
    if e.rot_b_val ≠ 0 then { e with rot_state := 3 } else e
  else if e.rot_state = 3 then
    -- CW, wait for A high
    if e.rot_a_val ≠ 0 then { e with rot_state := 0 } else e
  else if e.rot_state = 11 then
    -- CCW, wait for B low while A is low
    if e.rot_a_val = 0 then
      if e.rot_b_val = 0 then
        { e with rot_count := wrapInt32 (e.rot_count - 1), rot_state := 12 }
      else e
    else
      if e.rot_b_val ≠ 0 then { e with rot_state := 0 } else e
  else if e.rot_state = 12 then
    -- CCW, wait for A high
    if e.rot_a_val ≠ 0 then { e with rot_state := 13 } else e
  else if e.rot_state = 13 then
    -- CCW, wait for B high
    if e.rot_b_val ≠ 0 then { e with rot_state := 0 } else e
  else e

/-- The handler `Encoder2::isr_rot_a_change`; `level` is the truth value of
`digitalRead(pin_a)` sampled by the handler. -/
def isr_rot_a_change (level : Bool) (e : Encoder2) : Encoder2 :=
  if level then update_rot { e with rot_a_val := 1 }
  else update_rot { e with rot_a_val := 0 }

/-- The handler `Encoder2::isr_rot_b_change`; `level` is the truth value of
`digitalRead(pin_b)` sampled by the handler. -/
def isr_rot_b_change (level : Bool) (e : Encoder2) : Encoder2 :=
  if level then update_rot { e with rot_b_val := 1 }
  else update_rot { e with rot_b_val := 0 }

end Encoder2

/-- An interrupt delivered by the hardware dispatch: a change on line A or on line
B, with the level the handler then samples on that line. -/
inductive Edge where
  | A (level : Bool)
  | B (level : Bool)
  deriving DecidableEq

namespace Encoder2

/-- The handler bound to the line of the edge runs. -/
def dispatch (e : Encoder2) : Edge → Encoder2
  | Edge.A level => isr_rot_a_change level e
  | Edge.B level => isr_rot_b_change level e

/-- Edges are processed one after the other, in delivery order. -/
def feed (e : Encoder2) (es : List Edge) : Encoder2 :=
  es.foldl dispatch e

end Encoder2

/-- One full clockwise cycle: B low, A low, B high, A high. -/
def cw_cycle : List Edge :=
  [Edge.B false, Edge.A false, Edge.B true, Edge.A true]

/-- One full counter-clockwise cycle: A low, B low, A high, B high. -/
def ccw_cycle : List Edge :=
  [Edge.A false, Edge.B false, Edge.A true, Edge.B true]

/-- The processor state seen by the foreground code: the decoder object and the
global interrupt enable flag toggled by `noInterrupts()` / `interrupts()`. -/
structure Cpu where
  enc : Encoder2
  irq_enabled : Bool
  deriving DecidableEq

/-- Arduino `noInterrupts()`: interrupt delivery off. -/
def noInterrupts (m : Cpu) : Cpu := { m with irq_enabled := false }

/-- Arduino `interrupts()`: interrupt delivery on. -/
def interrupts (m : Cpu) : Cpu := { m with irq_enabled := true }

/-- The method `Encoder2::read`: returns the value copied into the local `n` and
the processor state after the call. -/
def Encoder2.read (m : Cpu) : Int × Cpu :=
  let m1 := noInterrupts m
  let n := m1.enc.rot_count
  let m2 := interrupts m1
  (n, m2)

/-- The method `Encoder2::write`. -/
def Encoder2.write (n : Int) (m : Cpu) : Cpu :=
  let m1 := noInterrupts m
  let m2 := { m1 with enc := { m1.enc with rot_count := n } }
  interrupts m2

/-! ## Frequency store (rox2x.h, eeprom_2m.cpp) -/

/-- Upper end of the tuning range, `rox2x.h`. -/
def MAX_TUNE_FREQ : Nat := 146500000

/-- Lower end of the tuning range, `rox2x.h`. -/
def MIN_TUNE_FREQ : Nat := 143500000

/-- Modelled from the spec: the body of `is_valid_freq(uint32_t)`, which `rox2x.h`
only declares. The validity predicate of the specification: the value lies within
`[MIN_TUNE_FREQ, MAX_TUNE_FREQ]`. -/
def is_valid_freq (f : Nat) : Bool :=
  decide (MIN_TUNE_FREQ ≤ f ∧ f ≤ MAX_TUNE_FREQ)

/-- Content of the byte addressable persistent medium behind the `EEPROM` object:
the byte held at each offset (a byte is the stored number modulo 256). -/
abbrev Medium := Nat → Nat

/-- Content of the caller's array `uint32_t freqs[]`, by index. -/
abbrev Freqs := Nat → Nat

/-- Assignment `freqs[i] = v`. -/
def Freqs.set (fr : Freqs) (i v : Nat) : Freqs :=
  fun t => if t = i then v else fr t

/-- The call `EEPROM.put(addr, v)` for a `uint32_t` value: the four bytes of `v`,
least significant first, replace the bytes at `addr .. addr + 3`. -/
def EEPROM_put (m : Medium) (addr v : Nat) : Medium :=
  fun a =>
    if a = addr then v % 256
    else if a = addr + 1 then v / 256 % 256
    else if a = addr + 2 then v / 65536 % 256
    else if a = addr + 3 then v / 16777216 % 256
    else m a

/-- The call `EEPROM.get(addr, f)` for a `uint32_t` variable: the word assembled
from the four bytes at `addr .. addr + 3`. -/
def EEPROM_get (m : Medium) (addr : Nat) : Nat :=
  m addr % 256 + 256 * (m (addr + 1) % 256) + 65536 * (m (addr + 2) % 256)
    + 16777216 * (m (addr + 3) % 256)

/-- The call `EEPROM.commit()`: flushes the written bytes; the content read back
afterwards is the content written. -/
def EEPROM_commit (m : Medium) : Medium := m

/-- The `for` loop of `store_frequencies`, entered with loop variable `i`; `fuel`
bounds the number of iterations still allowed. -/
def store_loop (fr : Freqs) : Nat → Nat → Medium → Medium
  | 0, _, m => m
  | fuel + 1, i, m =>
    if i ≤ 9 then
      if is_valid_freq (fr i) then
        -- Valid frequency, store it
        store_loop fr fuel (i + 1) (EEPROM_put m ((i - 1) * 4) (fr i))
      else
        -- Invalid frequency, abort writing
        EEPROM_put m ((i - 1) * 4) 4294967295
    else m

/-- The function `store_frequencies(freqs)`: the medium after the call. -/
def store_frequencies (fr : Freqs) (m : Medium) : Medium :=
  EEPROM_commit (store_loop fr 10 1 m)

/-- The `for` loop of `recall_frequencies`, entered with loop variable `ii`;
returns the final value of `ii` and the array. `fuel` bounds the number of
iterations still allowed. -/
def recall_loop (m : Medium) : Nat → Nat → Freqs → Nat × Freqs
  | 0, ii, fr => (ii, fr)
  | fuel + 1, ii, fr =>
    if ii ≤ 9 then
      let f := EEPROM_get m ((ii - 1) * 4)
      if is_valid_freq f then
        -- Valid frequency, use it
        recall_loop m fuel (ii + 1) (fr.set ii f)
      else
        -- Invalid frequency, abort reading
        let fr1 := fr.set ii 0
        if ii = 1 then
          (2, (fr1.set 1 144710000).set 2 145000000)
        else
          (ii - 1, fr1)
    else (ii, fr)

/-- The function `recall_frequencies(freqs)`: the returned count and the array
after the call. -/
def recall_frequencies (m : Medium) (fr : Freqs) : Nat × Freqs :=
  recall_loop m 10 1 fr

/-! ## Foreground accessors, step by step -/

/-- A primitive step of the foreground accessors `read` and `write`: one of the
two interrupt switches, or one access to the accumulator `rot_count`. -/
inductive Op where
  | irq_off
  | irq_on
  | load_count
  | store_count (n : Int)
  deriving DecidableEq

/-- A run of foreground steps: the processor state, the local `n` of `read`, and
for every access to the accumulator made so far the value the interrupt flag had
at that access (in order). -/
structure Run where
  cpu : Cpu
  n : Int
  access_flags : List Bool
  deriving DecidableEq

/-- The run at the call: nothing accessed yet. -/
def Run.start (m : Cpu) : Run := { cpu := m, n := 0, access_flags := [] }

/-- One primitive step. -/
def Run.step (r : Run) : Op → Run
  | Op.irq_off => { r with cpu := noInterrupts r.cpu }
  | Op.irq_on => { r with cpu := interrupts r.cpu }
  | Op.load_count =>
    { r with n := r.cpu.enc.rot_count,
             access_flags := r.access_flags ++ [r.cpu.irq_enabled] }
  | Op.store_count v =>
    { r with cpu := { r.cpu with enc := { r.cpu.enc with rot_count := v } },
             access_flags := r.access_flags ++ [r.cpu.irq_enabled] }

/-- Steps run one after the other. -/
def Run.exec (r : Run) (ops : List Op) : Run := ops.foldl Run.step r

/-- The body of `Encoder2::read`: `noInterrupts(); n = rot_count; interrupts();`. -/
def read_ops : List Op := [Op.irq_off, Op.load_count, Op.irq_on]

/-- The body of `Encoder2::write`: `noInterrupts(); rot_count = n; interrupts();`. -/
def write_ops (n : Int) : List Op := [Op.irq_off, Op.store_count n, Op.irq_on]

/-! ## Recall with the medium threaded through -/

/-- The call `EEPROM.get(addr, f)` as an operation on the medium: the word read and
the medium afterwards (a read leaves the content as it is). -/
def EEPROM_get_st (m : Medium) (addr : Nat) : Nat × Medium :=
  (EEPROM_get m addr, m)

/-- The `for` loop of `recall_frequencies` with the medium as part of the state:
returns the final `ii`, the array and the medium. -/
def recall_loop_st : Nat → Nat → Freqs → Medium → Nat × Freqs × Medium
  | 0, ii, fr, m => (ii, fr, m)
  | fuel + 1, ii, fr, m =>
    if ii ≤ 9 then
      let r := EEPROM_get_st m ((ii - 1) * 4)
      if is_valid_freq r.1 then
        recall_loop_st fuel (ii + 1) (fr.set ii r.1) r.2
      else
        let fr1 := fr.set ii 0
        if ii = 1 then
          (2, (fr1.set 1 144710000).set 2 145000000, r.2)
        else
          (ii - 1, fr1, r.2)
    else (ii, fr, m)

/-- The function `recall_frequencies(freqs)` with the medium as part of the state:
the returned count, the array and the medium after the call. -/
def recall_frequencies_st (m : Medium) (fr : Freqs) : Nat × Freqs × Medium :=
  recall_loop_st 10 1 fr m

/-! ## Scenarios -/

/-- A fresh medium: every byte is `0xFF`, so every word is the sentinel. -/
def blank_medium : Medium := fun _ => 255

/-- A medium whose every word is 144710000 (bytes `70 19 A0 08`): nine valid
entries and no invalid one. -/
def full_medium : Medium := fun a =>
  if a % 4 = 0 then 112 else if a % 4 = 1 then 25 else if a % 4 = 2 then 160 else 8

/-- Nine valid frequencies at indices 1 .. 9: 144.1 MHz up to 144.9 MHz. -/
def nine_valid : Freqs := fun i => 144000000 + 100000 * i

/-- The list of the specification: 144800000, 145200000, then an invalid value. -/
def two_valid : Freqs := fun i =>
  if i = 1 then 144800000 else if i = 2 then 145200000 else 999999999

/-- An array holding a leftover valid frequency at index 3 and zero elsewhere. -/
def stale_array : Freqs := fun i => if i = 3 then 144000000 else 0

/-- The sequence `recall_frequencies(freqs); store_frequencies(freqs);
recall_frequencies(freqs)` on one array: the result of the first and of the
second recall. -/
def recall_store_recall (m : Medium) (fr : Freqs) : (Nat × Freqs) × (Nat × Freqs) :=
  let r1 := recall_frequencies m fr
  let m1 := store_frequencies r1.2 m
  let r2 := recall_frequencies m1 r1.2
  (r1, r2)

/-- A half turn that is reversed: B low, A low, then A high, B high. -/
def reversed_half_turn : List Edge :=
  [Edge.B false, Edge.A false, Edge.A true, Edge.B true]

/-- A processor inside a critical section of the caller: interrupts already off. -/
def masked_cpu : Cpu := { enc := Encoder2.new 2 3, irq_enabled := false }

/-! ## Machine integers: lemmas -/

theorem wrapInt32_of_range (x : Int) (hlo : INT_MIN ≤ x) (hhi : x ≤ INT_MAX) :
    wrapInt32 x = x := by
  unfold wrapInt32
  unfold INT_MIN at hlo
  unfold INT_MAX at hhi
  omega

/-! ## Quadrature decoder -/

section Decoder
open Encoder2

theorem feed_cw_cycle (e : Encoder2) (h0 : e.rot_state = 0) (ha : e.rot_a_val = 1) :
    e.feed cw_cycle
      = { e with rot_count := wrapInt32 (e.rot_count + 1), rot_a_val := 1,
                 rot_b_val := 1, rot_state := 0 } := by
  simp [feed, cw_cycle, dispatch, isr_rot_a_change, isr_rot_b_change, update_rot, h0, ha]

theorem feed_ccw_cycle (e : Encoder2) (h0 : e.rot_state = 0) (hb : e.rot_b_val = 1) :
    e.feed ccw_cycle
      = { e with rot_count := wrapInt32 (e.rot_count - 1), rot_a_val := 1,
                 rot_b_val := 1, rot_state := 0 } := by
  simp [feed, ccw_cycle, dispatch, isr_rot_a_change, isr_rot_b_change, update_rot, h0, hb]

/-- C1: from IDLE with the cached levels high, the four edges of one clockwise
cycle (B low, A low, B high, A high) bring the state machine back to IDLE and
increment the accumulator once: it holds the `int` value `c + 1`, which is the
number `c + 1` whenever that number is representable. (The cached B level is
overwritten by the first edge, so only the A level is assumed.) -/
theorem cw_cycle_increments (e : Encoder2) (h0 : e.rot_state = 0)
    (ha : e.rot_a_val = 1) :
    (e.feed cw_cycle).rot_state = 0
    ∧ (e.feed cw_cycle).rot_count = wrapInt32 (e.rot_count + 1)
    ∧ (INT_MIN ≤ e.rot_count → e.rot_count < INT_MAX →
        (e.feed cw_cycle).rot_count = e.rot_count + 1) := by
  rw [feed_cw_cycle e h0 ha]
  refine ⟨rfl, rfl, ?_⟩
  intro hlo hhi
  show wrapInt32 (e.rot_count + 1) = e.rot_count + 1
  apply wrapInt32_of_range
  · unfold INT_MIN at *; omega
  · unfold INT_MAX at *; omega

/-- The clockwise cycle on the decoder as constructed: the count goes from 0 to 1. -/
theorem cw_cycle_increments_witness :
    (Encoder2.new 2 3).rot_state = 0 ∧ (Encoder2.new 2 3).rot_a_val = 1
    ∧ ((Encoder2.new 2 3).feed cw_cycle).rot_state = 0
    ∧ ((Encoder2.new 2 3).feed cw_cycle).rot_count = 1 :=
  ⟨rfl, rfl, (cw_cycle_increments (Encoder2.new 2 3) rfl rfl).1,
    (cw_cycle_increments (Encoder2.new 2 3) rfl rfl).2.2 (by decide) (by decide)⟩

/-- C2: from IDLE with the cached levels high, the four edges of one
counter-clockwise cycle (A low, B low, A high, B high) bring the state machine
back to IDLE and decrement the accumulator once: it holds the `int` value
`c - 1`, which is the number `c - 1` whenever that number is representable. (The
cached A level is overwritten by the first edge, so only the B level is assumed.) -/
theorem ccw_cycle_decrements (e : Encoder2) (h0 : e.rot_state = 0)
    (hb : e.rot_b_val = 1) :
    (e.feed ccw_cycle).rot_state = 0
    ∧ (e.feed ccw_cycle).rot_count = wrapInt32 (e.rot_count - 1)
    ∧ (INT_MIN < e.rot_count → e.rot_count ≤ INT_MAX →
        (e.feed ccw_cycle).rot_count = e.rot_count - 1) := by
  rw [feed_ccw_cycle e h0 hb]
  refine ⟨rfl, rfl, ?_⟩
  intro hlo hhi
  show wrapInt32 (e.rot_count - 1) = e.rot_count - 1
  apply wrapInt32_of_range
  · unfold INT_MIN at *; omega
  · unfold INT_MAX at *; omega

/-- The counter-clockwise cycle on the decoder as constructed: the count goes from 0
to -1. -/
theorem ccw_cycle_decrements_witness :
    (Encoder2.new 2 3).rot_state = 0 ∧ (Encoder2.new 2 3).rot_b_val = 1
    ∧ ((Encoder2.new 2 3).feed ccw_cycle).rot_state = 0
    ∧ ((Encoder2.new 2 3).feed ccw_cycle).rot_count = -1 :=
  ⟨rfl, rfl, (ccw_cycle_decrements (Encoder2.new 2 3) rfl rfl).1,
    (ccw_cycle_decrements (Encoder2.new 2 3) rfl rfl).2.2 (by decide) (by decide)⟩

/-- C3: from IDLE with both cached levels high, a glitch on one line alone (B low
then B high, or A low then A high, the other line never sampled low) leaves the
accumulator unchanged and the state machine in IDLE. -/
theorem isolated_glitch_ignored (e : Encoder2) (h0 : e.rot_state = 0)
    (ha : e.rot_a_val = 1) (hb : e.rot_b_val = 1) :
    (e.feed [Edge.B false, Edge.B true]).rot_count = e.rot_count
    ∧ (e.feed [Edge.B false, Edge.B true]).rot_state = 0
    ∧ (e.feed [Edge.A false, Edge.A true]).rot_count = e.rot_count
    ∧ (e.feed [Edge.A false, Edge.A true]).rot_state = 0 := by
  simp [feed, dispatch, isr_rot_a_change, isr_rot_b_change, update_rot, h0, ha, hb]

/-- Both glitches on the decoder as constructed: the count stays 0. -/
theorem isolated_glitch_ignored_witness :
    (Encoder2.new 2 3).rot_state = 0 ∧ (Encoder2.new 2 3).rot_a_val = 1
    ∧ (Encoder2.new 2 3).rot_b_val = 1
    ∧ ((Encoder2.new 2 3).feed [Edge.B false, Edge.B true]).rot_count = 0
    ∧ ((Encoder2.new 2 3).feed [Edge.B false, Edge.B true]).rot_state = 0
    ∧ ((Encoder2.new 2 3).feed [Edge.A false, Edge.A true]).rot_count = 0
    ∧ ((Encoder2.new 2 3).feed [Edge.A false, Edge.A true]).rot_state = 0 :=
  ⟨rfl, rfl, rfl, isolated_glitch_ignored (Encoder2.new 2 3) rfl rfl rfl⟩

/-- C4: in every processor state, `write(n)` followed at once by `read()` returns
`n`, for every `n` (so for every representable `int`). -/
theorem read_after_write (m : Cpu) (n : Int) :
    (Encoder2.read (Encoder2.write n m)).1 = n := by
  rfl

end Decoder


/-! ## Frequency store -/

section Store

theorem is_valid_freq_iff (f : Nat) :
    is_valid_freq f = true ↔ 143500000 ≤ f ∧ f ≤ 146500000 := by
  simp [is_valid_freq, MIN_TUNE_FREQ, MAX_TUNE_FREQ]

theorem is_valid_freq_lt (f : Nat) (h : is_valid_freq f = true) : f < 4294967296 := by
  rw [is_valid_freq_iff] at h
  omega

theorem Freqs.set_apply (fr : Freqs) (i v t : Nat) :
    fr.set i v t = if t = i then v else fr t := rfl

theorem EEPROM_put_byte_outside (m : Medium) (addr v a : Nat)
    (h : a < addr ∨ addr + 4 ≤ a) : EEPROM_put m addr v a = m a := by
  unfold EEPROM_put
  rw [if_neg (by omega), if_neg (by omega), if_neg (by omega), if_neg (by omega)]

theorem EEPROM_get_put_same (m : Medium) (addr v : Nat) (hv : v < 4294967296) :
    EEPROM_get (EEPROM_put m addr v) addr = v := by
  have h1 : ¬ addr + 1 = addr := by omega
  have h2 : ¬ addr + 2 = addr := by omega
  have h3 : ¬ addr + 3 = addr := by omega
  have h4 : ¬ addr + 2 = addr + 1 := by omega
  have h5 : ¬ addr + 3 = addr + 1 := by omega
  have h6 : ¬ addr + 3 = addr + 2 := by omega
  simp only [EEPROM_get, EEPROM_put, if_true, if_false, h1, h2, h3, h4, h5, h6]
  omega

theorem EEPROM_get_put_disjoint (m : Medium) (addr v b : Nat)
    (h : b + 4 ≤ addr ∨ addr + 4 ≤ b) :
    EEPROM_get (EEPROM_put m addr v) b = EEPROM_get m b := by
  unfold EEPROM_get
  rw [EEPROM_put_byte_outside m addr v b (by omega),
    EEPROM_put_byte_outside m addr v (b + 1) (by omega),
    EEPROM_put_byte_outside m addr v (b + 2) (by omega),
    EEPROM_put_byte_outside m addr v (b + 3) (by omega)]

theorem EEPROM_get_lt (m : Medium) (addr : Nat) : EEPROM_get m addr < 4294967296 := by
  unfold EEPROM_get
  omega

/-- Bytes below the word of the loop variable are not touched by the store loop. -/
theorem store_loop_byte_below (fr : Freqs) (fuel : Nat) :
    ∀ (i : Nat) (m : Medium) (a : Nat), a < (i - 1) * 4 →
      store_loop fr fuel i m a = m a := by
  induction fuel with
  | zero => intro i m a _; rfl
  | succ fuel ih =>
    intro i m a ha
    simp only [store_loop]
    split
    · split
      · rw [ih (i + 1) _ a (by omega)]
        exact EEPROM_put_byte_outside m _ _ a (Or.inl ha)
      · exact EEPROM_put_byte_outside m _ _ a (Or.inl ha)
    · rfl

theorem store_loop_get_below (fr : Freqs) (fuel i : Nat) (m : Medium) (b : Nat)
    (hb : b + 4 ≤ (i - 1) * 4) :
    EEPROM_get (store_loop fr fuel i m) b = EEPROM_get m b := by
  unfold EEPROM_get
  rw [store_loop_byte_below fr fuel i m b (by omega),
    store_loop_byte_below fr fuel i m (b + 1) (by omega),
    store_loop_byte_below fr fuel i m (b + 2) (by omega),
    store_loop_byte_below fr fuel i m (b + 3) (by omega)]

/-- The store loop writes every entry of a valid run `i .. n` to its word. -/
theorem store_loop_valid_run (fr : Freqs) (n : Nat) (hn : n ≤ 9) (fuel : Nat) :
    ∀ (i : Nat) (m : Medium), 1 ≤ i → n + 1 ≤ i + fuel →
      (∀ t, i ≤ t → t ≤ n → is_valid_freq (fr t) = true) →
      ∀ t, i ≤ t → t ≤ n →
        EEPROM_get (store_loop fr fuel i m) ((t - 1) * 4) = fr t := by
  induction fuel with
  | zero => intro i m _ hf _ t h1 h2; omega
  | succ fuel ih =>
    intro i m hi hf hv t h1 h2
    have hvi : is_valid_freq (fr i) = true := hv i (le_refl i) (by omega)
    simp only [store_loop]
    rw [if_pos (by omega), if_pos hvi]
    by_cases hti : t = i
    · subst hti
      rw [store_loop_get_below fr fuel (t + 1) _ _ (by omega)]
      exact EEPROM_get_put_same m _ _ (is_valid_freq_lt _ hvi)
    · exact ih (i + 1) _ (by omega) (by omega)
        (fun u hu1 hu2 => hv u (by omega) hu2) t (by omega) h2

/-- The store loop writes the sentinel at the word of the first invalid entry. -/
theorem store_loop_sentinel (fr : Freqs) (j : Nat) (hj : j ≤ 9) (fuel : Nat) :
    ∀ (i : Nat) (m : Medium), 1 ≤ i → i ≤ j → j + 1 ≤ i + fuel →
      (∀ t, i ≤ t → t < j → is_valid_freq (fr t) = true) →
      is_valid_freq (fr j) = false →
      EEPROM_get (store_loop fr fuel i m) ((j - 1) * 4) = 4294967295 := by
  induction fuel with
  | zero => intro i m _ hij hf _ _; omega
  | succ fuel ih =>
    intro i m hi hij hf hv hinv
    simp only [store_loop]
    rw [if_pos (by omega)]
    by_cases hji : i = j
    · subst hji
      rw [hinv]
      simp only [Bool.false_eq_true, if_false]
      exact EEPROM_get_put_same m _ _ (by omega)
    · have hvi : is_valid_freq (fr i) = true := hv i (le_refl i) (by omega)
      rw [if_pos hvi]
      exact ih (i + 1) _ (by omega) (by omega) (by omega)
        (fun u hu1 hu2 => hv u (by omega) hu2) hinv

/-- The recall loop over a medium whose words `i .. 9` are all valid runs off the
end of the loop: the loop variable ends at 10 and every word is copied. -/
theorem recall_loop_all_valid (m : Medium) (fuel : Nat) :
    ∀ (i : Nat) (fr : Freqs), i ≤ 10 → 10 ≤ i + fuel →
      (∀ t, i ≤ t → t ≤ 9 → is_valid_freq (EEPROM_get m ((t - 1) * 4)) = true) →
      (recall_loop m fuel i fr).1 = 10
      ∧ ∀ t, (recall_loop m fuel i fr).2 t
          = if i ≤ t ∧ t ≤ 9 then EEPROM_get m ((t - 1) * 4) else fr t := by
  induction fuel with
  | zero =>
    intro i fr h1 h2 _
    have : i = 10 := by omega
    subst this
    refine ⟨rfl, fun t => ?_⟩
    rw [if_neg (by omega)]
    rfl
  | succ fuel ih =>
    intro i fr h1 h2 hv
    simp only [recall_loop]
    by_cases hi : i ≤ 9
    · rw [if_pos hi, if_pos (hv i (le_refl i) hi)]
      obtain ⟨hc, hf⟩ := ih (i + 1) (fr.set i (EEPROM_get m ((i - 1) * 4))) (by omega)
        (by omega) (fun u hu1 hu2 => hv u (by omega) hu2)
      refine ⟨hc, fun t => ?_⟩
      rw [hf t, Freqs.set_apply]
      by_cases hti : t = i
      · subst hti
        rw [if_neg (by omega), if_pos rfl, if_pos ⟨le_refl t, hi⟩]
      · rw [if_neg hti]
        by_cases hc1 : i + 1 ≤ t ∧ t ≤ 9
        · rw [if_pos hc1, if_pos ⟨by omega, hc1.2⟩]
        · rw [if_neg hc1, if_neg (by omega)]
    · rw [if_neg hi]
      refine ⟨by show i = 10; omega, fun t => ?_⟩
      rw [if_neg (by omega)]

/-- The recall loop, entered at `i`, on a medium whose words `i .. j - 1` are valid
and whose word `j` (with `2 ≤ j`) is invalid: it returns `j - 1`, copies the valid
words, zeroes entry `j` and leaves the other entries alone. -/
theorem recall_loop_stop (m : Medium) (j : Nat) (hj2 : 2 ≤ j) (hj : j ≤ 9) (fuel : Nat) :
    ∀ (i : Nat) (fr : Freqs), 1 ≤ i → i ≤ j → j + 1 ≤ i + fuel →
      (∀ t, i ≤ t → t < j → is_valid_freq (EEPROM_get m ((t - 1) * 4)) = true) →
      is_valid_freq (EEPROM_get m ((j - 1) * 4)) = false →
      (recall_loop m fuel i fr).1 = j - 1
      ∧ ∀ t, (recall_loop m fuel i fr).2 t
          = if i ≤ t ∧ t < j then EEPROM_get m ((t - 1) * 4)
            else if t = j then 0 else fr t := by
  induction fuel with
  | zero => intro i fr _ hij hf _ _; omega
  | succ fuel ih =>
    intro i fr hi hij hf hv hinv
    simp only [recall_loop]
    rw [if_pos (by omega)]
    by_cases hji : i = j
    · subst hji
      rw [hinv]
      simp only [Bool.false_eq_true, if_false]
      rw [if_neg (by omega)]
      refine ⟨rfl, fun t => ?_⟩
      show (fr.set i 0) t = _
      rw [if_neg (by omega), Freqs.set_apply]
    · have hvi := hv i (le_refl i) (by omega)
      rw [if_pos hvi]
      obtain ⟨hc, hf⟩ := ih (i + 1) (fr.set i (EEPROM_get m ((i - 1) * 4))) (by omega)
        (by omega) (by omega) (fun u hu1 hu2 => hv u (by omega) hu2) hinv
      refine ⟨hc, fun t => ?_⟩
      rw [hf t, Freqs.set_apply]
      by_cases hti : t = i
      · subst hti
        rw [if_neg (by omega), if_neg (by omega), if_pos rfl, if_pos ⟨le_refl t, by omega⟩]
      · rw [if_neg hti]
        by_cases hc1 : i + 1 ≤ t ∧ t < j
        · rw [if_pos hc1, if_pos ⟨by omega, hc1.2⟩]
        · rw [if_neg hc1, if_neg (show ¬(i ≤ t ∧ t < j) by omega)]

/-- An invalid first word makes the recall take the fallback branch. -/
theorem recall_first_invalid (m : Medium) (fr : Freqs)
    (h : is_valid_freq (EEPROM_get m 0) = false) :
    recall_frequencies m fr
      = (2, ((fr.set 1 0).set 1 144710000).set 2 145000000) := by
  simp [recall_frequencies, recall_loop, h]

/-- From index 2 on the recall loop leaves entry 1 alone. -/
theorem recall_loop_keeps_first (m : Medium) (fuel : Nat) :
    ∀ (i : Nat) (fr : Freqs), 2 ≤ i → (recall_loop m fuel i fr).2 1 = fr 1 := by
  induction fuel with
  | zero => intro i fr _; rfl
  | succ fuel ih =>
    intro i fr hi
    simp only [recall_loop]
    split
    · split
      · rw [ih (i + 1) _ (by omega), Freqs.set_apply, if_neg (by omega)]
      · rw [if_neg (by omega)]
        show (fr.set i 0) 1 = fr 1
        rw [Freqs.set_apply, if_neg (by omega)]
    · rfl

/-- The value returned by the recall loop lies between 1 and 10. -/
theorem recall_loop_count_bounds (m : Medium) (fuel : Nat) :
    ∀ (i : Nat) (fr : Freqs), 1 ≤ i → i ≤ 10 →
      1 ≤ (recall_loop m fuel i fr).1 ∧ (recall_loop m fuel i fr).1 ≤ 10 := by
  induction fuel with
  | zero => intro i fr h1 h2; exact ⟨h1, h2⟩
  | succ fuel ih =>
    intro i fr h1 h2
    simp only [recall_loop]
    split
    · split
      · exact ih (i + 1) _ (by omega) (by omega)
      · split
        · show 1 ≤ 2 ∧ 2 ≤ 10
          omega
        · show 1 ≤ i - 1 ∧ i - 1 ≤ 10
          omega
    · exact ⟨h1, h2⟩

/-- The count returned by `recall_frequencies` is at least 1 and at most 10. -/
theorem recall_count_bounds (m : Medium) (fr : Freqs) :
    1 ≤ (recall_frequencies m fr).1 ∧ (recall_frequencies m fr).1 ≤ 10 :=
  recall_loop_count_bounds m 10 1 fr (le_refl 1) (by decide)

/-- Ten iterations are enough for the recall loop: more fuel gives the same
result. -/
theorem recall_loop_fuel (m : Medium) (fuel : Nat) :
    ∀ (i : Nat) (fr : Freqs), 10 ≤ i + fuel →
      recall_loop m (fuel + 1) i fr = recall_loop m fuel i fr := by
  induction fuel with
  | zero =>
    intro i fr h
    simp only [recall_loop]
    rw [if_neg (by omega)]
  | succ fuel ih =>
    intro i fr h
    have hstep := ih (i + 1) (fr.set i (EEPROM_get m ((i - 1) * 4))) (by omega)
    simp only [recall_loop] at hstep ⊢
    split
    · split
      · exact hstep
      · rfl
    · rfl

/-- Ten iterations are enough for the store loop: more fuel gives the same
result. -/
theorem store_loop_fuel (fr : Freqs) (fuel : Nat) :
    ∀ (i : Nat) (m : Medium), 10 ≤ i + fuel →
      store_loop fr (fuel + 1) i m = store_loop fr fuel i m := by
  induction fuel with
  | zero =>
    intro i m h
    simp only [store_loop]
    rw [if_neg (by omega)]
  | succ fuel ih =>
    intro i m h
    have hstep := ih (i + 1) (EEPROM_put m ((i - 1) * 4) (fr i)) (by omega)
    simp only [store_loop] at hstep ⊢
    split
    · split
      · exact hstep
      · rfl
    · rfl

/-- Storing nine valid entries and recalling returns every entry, with the loop
variable run off the end: the returned value is 10. -/
theorem store_recall_nine_valid (m : Medium) (out fr : Freqs)
    (hv : ∀ t, 1 ≤ t → t ≤ 9 → is_valid_freq (fr t) = true) :
    (recall_frequencies (store_frequencies fr m) out).1 = 10
    ∧ ∀ t, 1 ≤ t → t ≤ 9 →
        (recall_frequencies (store_frequencies fr m) out).2 t = fr t := by
  have hw : ∀ t, 1 ≤ t → t ≤ 9 →
      EEPROM_get (store_frequencies fr m) ((t - 1) * 4) = fr t :=
    store_loop_valid_run fr 9 (le_refl 9) 10 1 m (le_refl 1) (by decide) hv
  obtain ⟨hc, hf⟩ := recall_loop_all_valid (store_frequencies fr m) 10 1 out
    (by decide) (by decide) (fun t h1 h2 => by rw [hw t h1 h2]; exact hv t h1 h2)
  refine ⟨hc, fun t h1 h2 => ?_⟩
  show (recall_loop (store_frequencies fr m) 10 1 out).2 t = fr t
  rw [hf t, if_pos ⟨h1, h2⟩, hw t h1 h2]

/-- C5: with nine valid frequencies 144.1 .. 144.9 MHz stored, on every medium and
for every initial output array, `recall_frequencies` hands back the nine stored
values, but the value it returns is 10, not 9: the `for` loop runs off its end
with `ii = 10` and that value is returned unadjusted. -/
theorem store_recall_nine_returns_ten (m : Medium) (out : Freqs) :
    (recall_frequencies (store_frequencies nine_valid m) out).1 = 10
    ∧ (recall_frequencies (store_frequencies nine_valid m) out).1 ≠ 9
    ∧ (recall_frequencies (store_frequencies nine_valid m) out).2 1 = 144100000
    ∧ (recall_frequencies (store_frequencies nine_valid m) out).2 9 = 144900000 := by
  have hv : ∀ t, 1 ≤ t → t ≤ 9 → is_valid_freq (nine_valid t) = true := by
    intro t h1 h2
    interval_cases t <;> decide
  obtain ⟨hc, hf⟩ := store_recall_nine_valid m out nine_valid hv
  refine ⟨hc, by rw [hc]; decide, ?_, ?_⟩
  · rw [hf 1 (by decide) (by decide)]; rfl
  · rw [hf 9 (by decide) (by decide)]; rfl

/-- C6: on a medium whose nine words are all valid, for every initial output
array, the count returned by `recall_frequencies` is 10, outside `1 .. 9`. -/
theorem recall_full_medium_returns_ten (out : Freqs) :
    (recall_frequencies full_medium out).1 = 10
    ∧ ¬ (recall_frequencies full_medium out).1 ≤ 9 := by
  have hw : ∀ t, 1 ≤ t → t ≤ 9 →
      is_valid_freq (EEPROM_get full_medium ((t - 1) * 4)) = true := by
    intro t h1 h2
    interval_cases t <;> decide
  have hc := (recall_loop_all_valid full_medium 10 1 out (by decide) (by decide) hw).1
  have hc2 : (recall_frequencies full_medium out).1 = 10 := hc
  exact ⟨hc2, by rw [hc2]; decide⟩

/-- C7: when entries `1 .. k` of the list are valid and entry `k + 1` is invalid
(`1 ≤ k ≤ 8`), storing and then recalling returns the count `k` and the recalled
entries `1 .. k` are the stored ones, on every medium and for every initial
output array. -/
theorem store_recall_valid_prefix (m : Medium) (out fr : Freqs) (k : Nat)
    (hk1 : 1 ≤ k) (hk8 : k ≤ 8)
    (hv : ∀ t, 1 ≤ t → t ≤ k → is_valid_freq (fr t) = true)
    (hinv : is_valid_freq (fr (k + 1)) = false) :
    (recall_frequencies (store_frequencies fr m) out).1 = k
    ∧ ∀ t, 1 ≤ t → t ≤ k →
        (recall_frequencies (store_frequencies fr m) out).2 t = fr t := by
  have hw : ∀ t, 1 ≤ t → t ≤ k →
      EEPROM_get (store_frequencies fr m) ((t - 1) * 4) = fr t :=
    store_loop_valid_run fr k (by omega) 10 1 m (le_refl 1) (by omega) hv
  have hs : EEPROM_get (store_frequencies fr m) ((k + 1 - 1) * 4) = 4294967295 :=
    store_loop_sentinel fr (k + 1) (by omega) 10 1 m (le_refl 1) (by omega) (by omega)
      (fun t h1 h2 => hv t h1 (by omega)) hinv
  obtain ⟨hc, hf⟩ := recall_loop_stop (store_frequencies fr m) (k + 1) (by omega)
    (by omega) 10 1 out (le_refl 1) (by omega) (by omega)
    (fun t h1 h2 => by rw [hw t h1 (by omega)]; exact hv t h1 (by omega))
    (by rw [hs]; decide)
  refine ⟨hc, fun t h1 h2 => ?_⟩
  show (recall_loop (store_frequencies fr m) 10 1 out).2 t = fr t
  rw [hf t, if_pos ⟨h1, by omega⟩, hw t h1 h2]

/-- The list 144800000, 145200000, 999999999 of the specification: count 2 and the
first two values. -/
theorem store_recall_valid_prefix_witness :
    (recall_frequencies (store_frequencies two_valid blank_medium) stale_array).1 = 2
    ∧ (recall_frequencies (store_frequencies two_valid blank_medium) stale_array).2 1
        = 144800000
    ∧ (recall_frequencies (store_frequencies two_valid blank_medium) stale_array).2 2
        = 145200000 :=
  have hv : ∀ t, 1 ≤ t → t ≤ 2 → is_valid_freq (two_valid t) = true := by
    intro t h1 h2
    interval_cases t <;> decide
  have h := store_recall_valid_prefix blank_medium stale_array two_valid 2
    (by decide) (by decide) hv (by decide)
  ⟨h.1, h.2 1 (by decide) (by decide), h.2 2 (by decide) (by decide)⟩

/-- C8: when entry 1 of the list is invalid, storing and then recalling returns
the count 2 with entry 1 = 144710000 and entry 2 = 145000000, on every medium and
for every initial output array; `recall_frequencies` alone on an all-sentinel
medium returns the same. -/
theorem store_recall_invalid_first (m : Medium) (out fr : Freqs)
    (hinv : is_valid_freq (fr 1) = false) :
    ((recall_frequencies (store_frequencies fr m) out).1 = 2
      ∧ (recall_frequencies (store_frequencies fr m) out).2 1 = 144710000
      ∧ (recall_frequencies (store_frequencies fr m) out).2 2 = 145000000)
    ∧ ((recall_frequencies blank_medium out).1 = 2
      ∧ (recall_frequencies blank_medium out).2 1 = 144710000
      ∧ (recall_frequencies blank_medium out).2 2 = 145000000) := by
  have hs : EEPROM_get (store_frequencies fr m) 0 = 4294967295 :=
    store_loop_sentinel fr 1 (by decide) 10 1 m (le_refl 1) (le_refl 1) (by decide)
      (fun t h1 h2 => by omega) hinv
  have h1 : is_valid_freq (EEPROM_get (store_frequencies fr m) 0) = false := by
    rw [hs]; decide
  have h2 : is_valid_freq (EEPROM_get blank_medium 0) = false := by decide
  rw [recall_first_invalid _ out h1, recall_first_invalid _ out h2]
  exact ⟨⟨rfl, rfl, rfl⟩, rfl, rfl, rfl⟩

/-- An array starting with 0, stored over a medium full of valid words: the recall
still returns the two defaults. -/
theorem store_recall_invalid_first_witness :
    is_valid_freq (stale_array 1) = false
    ∧ (recall_frequencies (store_frequencies stale_array full_medium) nine_valid).1 = 2
    ∧ (recall_frequencies (store_frequencies stale_array full_medium) nine_valid).2 1
        = 144710000
    ∧ (recall_frequencies (store_frequencies stale_array full_medium) nine_valid).2 2
        = 145000000 :=
  ⟨by decide,
    (store_recall_invalid_first full_medium nine_valid stale_array (by decide)).1⟩

/-- C9: on a blank medium with a leftover valid frequency in entry 3 of the
caller's array, the first recall returns the count 2 (the two defaults) and leaves
entry 3 in place, the store then persists three entries, and the second recall
returns the count 3: the round trip is not idempotent. -/
theorem recall_store_recall_grows :
    (recall_store_recall blank_medium stale_array).1.1 = 2
    ∧ (recall_store_recall blank_medium stale_array).2.1 = 3
    ∧ (recall_store_recall blank_medium stale_array).1.2 3 = 144000000
    ∧ (recall_store_recall blank_medium stale_array).2.2 3 = 144000000 := by
  decide

/-- C10: after `recall_frequencies`, on every medium and for every initial output
array, entry 1 of the output lies within `[MIN_TUNE_FREQ, MAX_TUNE_FREQ]`: it is a
valid frequency. -/
theorem recall_first_entry_valid (m : Medium) (out : Freqs) :
    MIN_TUNE_FREQ ≤ (recall_frequencies m out).2 1
    ∧ (recall_frequencies m out).2 1 ≤ MAX_TUNE_FREQ
    ∧ is_valid_freq ((recall_frequencies m out).2 1) = true := by
  have key : is_valid_freq ((recall_frequencies m out).2 1) = true := by
    cases h : is_valid_freq (EEPROM_get m 0) with
    | false =>
      rw [recall_first_invalid m out h]
      have hd : (((out.set 1 0).set 1 144710000).set 2 145000000) 1 = 144710000 := by
        simp [Freqs.set_apply]
      show is_valid_freq ((((out.set 1 0).set 1 144710000).set 2 145000000) 1) = true
      rw [hd]
      decide
    | true =>
      have hstep : recall_frequencies m out
          = recall_loop m 9 2 (out.set 1 (EEPROM_get m 0)) := by
        simp [recall_frequencies, recall_loop, h]
      rw [hstep, recall_loop_keeps_first m 9 2 _ (le_refl 2), Freqs.set_apply,
        if_pos rfl]
      exact h
  have hr := (is_valid_freq_iff _).1 key
  exact ⟨hr.1, hr.2, key⟩

end Store


section RoundTrip

/-- Either all nine words of a medium are valid, or there is a first invalid one. -/
theorem first_invalid_word (m : Medium) :
    (∀ t, 1 ≤ t → t ≤ 9 → is_valid_freq (EEPROM_get m ((t - 1) * 4)) = true)
    ∨ ∃ j, 1 ≤ j ∧ j ≤ 9 ∧ is_valid_freq (EEPROM_get m ((j - 1) * 4)) = false
        ∧ ∀ t, 1 ≤ t → t < j → is_valid_freq (EEPROM_get m ((t - 1) * 4)) = true := by
  by_cases hall : ∀ t, 1 ≤ t → t ≤ 9 → is_valid_freq (EEPROM_get m ((t - 1) * 4)) = true
  · exact Or.inl hall
  · right
    have hex : ∃ j, 1 ≤ j ∧ j ≤ 9 ∧ is_valid_freq (EEPROM_get m ((j - 1) * 4)) = false := by
      by_contra hno
      apply hall
      intro t h1 h2
      cases hv : is_valid_freq (EEPROM_get m ((t - 1) * 4)) with
      | true => rfl
      | false => exact absurd ⟨t, h1, h2, hv⟩ hno
    refine ⟨Nat.find hex, (Nat.find_spec hex).1, (Nat.find_spec hex).2.1,
      (Nat.find_spec hex).2.2, ?_⟩
    intro t h1 h2
    cases hv : is_valid_freq (EEPROM_get m ((t - 1) * 4)) with
    | true => rfl
    | false =>
      have hle : t ≤ 9 := by
        have := (Nat.find_spec hex).2.1
        omega
      exact absurd ⟨h1, hle, hv⟩ (Nat.find_min hex h2)

/-- When the first stored word is valid (the recall does not take its fallback
branch), recalling, storing the recalled array and recalling again gives the same
count and the same array as the first recall. -/
theorem recall_store_recall_same_of_valid_first (m : Medium) (fr : Freqs)
    (h1 : is_valid_freq (EEPROM_get m 0) = true) :
    (recall_store_recall m fr).2.1 = (recall_store_recall m fr).1.1
    ∧ ∀ t, (recall_store_recall m fr).2.2 t = (recall_store_recall m fr).1.2 t := by
  show (recall_frequencies (store_frequencies (recall_frequencies m fr).2 m)
          (recall_frequencies m fr).2).1 = (recall_frequencies m fr).1
    ∧ ∀ t, (recall_frequencies (store_frequencies (recall_frequencies m fr).2 m)
          (recall_frequencies m fr).2).2 t = (recall_frequencies m fr).2 t
  rcases first_invalid_word m with hall | ⟨j, hj1, hj9, hinv, hbelow⟩
  · obtain ⟨hc, hf⟩ := recall_loop_all_valid m 10 1 fr (by decide) (by decide) hall
    have hc1 : (recall_frequencies m fr).1 = 10 := hc
    have hf1 : ∀ t, (recall_frequencies m fr).2 t
        = if 1 ≤ t ∧ t ≤ 9 then EEPROM_get m ((t - 1) * 4) else fr t := hf
    have hv : ∀ t, 1 ≤ t → t ≤ 9 →
        is_valid_freq ((recall_frequencies m fr).2 t) = true := by
      intro t ht1 ht9
      rw [hf1 t, if_pos ⟨ht1, ht9⟩]
      exact hall t ht1 ht9
    obtain ⟨hc2, hf2⟩ := store_recall_nine_valid m (recall_frequencies m fr).2
      (recall_frequencies m fr).2 hv
    refine ⟨by rw [hc2, hc1], fun t => ?_⟩
    by_cases ht : 1 ≤ t ∧ t ≤ 9
    · exact hf2 t ht.1 ht.2
    · have hw : ∀ u, 1 ≤ u → u ≤ 9 → is_valid_freq (EEPROM_get
          (store_frequencies (recall_frequencies m fr).2 m) ((u - 1) * 4)) = true := by
        intro u hu1 hu9
        have := store_loop_valid_run (recall_frequencies m fr).2 9 (le_refl 9) 10 1 m
          (le_refl 1) (by decide) hv u hu1 hu9
        rw [show EEPROM_get (store_frequencies (recall_frequencies m fr).2 m)
          ((u - 1) * 4) = (recall_frequencies m fr).2 u from this]
        exact hv u hu1 hu9
      have := (recall_loop_all_valid (store_frequencies (recall_frequencies m fr).2 m)
        10 1 (recall_frequencies m fr).2 (by decide) (by decide) hw).2 t
      rw [if_neg ht] at this
      exact this
  · have hj2 : 2 ≤ j := by
      by_contra hlt
      have hj : j = 1 := by omega
      subst hj
      rw [h1] at hinv
      exact Bool.noConfusion hinv
    obtain ⟨hc, hf⟩ := recall_loop_stop m j hj2 hj9 10 1 fr (le_refl 1) hj1 (by omega)
      hbelow hinv
    have hc1 : (recall_frequencies m fr).1 = j - 1 := hc
    have hf1 : ∀ t, (recall_frequencies m fr).2 t
        = if 1 ≤ t ∧ t < j then EEPROM_get m ((t - 1) * 4)
          else if t = j then 0 else fr t := hf
    have hv : ∀ t, 1 ≤ t → t < j →
        is_valid_freq ((recall_frequencies m fr).2 t) = true := by
      intro t ht1 htj
      rw [hf1 t, if_pos ⟨ht1, htj⟩]
      exact hbelow t ht1 htj
    have hz : is_valid_freq ((recall_frequencies m fr).2 j) = false := by
      rw [hf1 j, if_neg (by omega), if_pos rfl]
      decide
    have hw : ∀ t, 1 ≤ t → t ≤ j - 1 →
        EEPROM_get (store_frequencies (recall_frequencies m fr).2 m) ((t - 1) * 4)
          = (recall_frequencies m fr).2 t :=
      store_loop_valid_run (recall_frequencies m fr).2 (j - 1) (by omega) 10 1 m
        (le_refl 1) (by omega) (fun t a b => hv t a (by omega))
    have hs : EEPROM_get (store_frequencies (recall_frequencies m fr).2 m) ((j - 1) * 4)
        = 4294967295 :=
      store_loop_sentinel (recall_frequencies m fr).2 j hj9 10 1 m (le_refl 1) hj1
        (by omega) hv hz
    obtain ⟨hc2, hf2⟩ := recall_loop_stop
      (store_frequencies (recall_frequencies m fr).2 m) j hj2 hj9 10 1
      (recall_frequencies m fr).2 (le_refl 1) hj1 (by omega)
      (fun t a b => by rw [hw t a (by omega)]; exact hv t a b)
      (by rw [hs]; decide)
    refine ⟨by rw [← hc1] at hc2; exact hc2, fun t => ?_⟩
    show (recall_loop (store_frequencies (recall_frequencies m fr).2 m) 10 1
      (recall_frequencies m fr).2).2 t = _
    rw [hf2 t]
    by_cases ht : 1 ≤ t ∧ t < j
    · rw [if_pos ht, hw t ht.1 (by omega)]
    · rw [if_neg ht]
      by_cases htj : t = j
      · rw [if_pos htj, hf1 t, if_neg ht, if_pos htj]
      · rw [if_neg htj]

end RoundTrip


/-! ## Quadrature decoder: single steps -/

section DecoderSteps
open Encoder2

theorem wrapInt32_succ_ne (c : Int) : wrapInt32 (c + 1) ≠ c := by
  unfold wrapInt32
  omega

theorem wrapInt32_pred_ne (c : Int) : wrapInt32 (c - 1) ≠ c := by
  unfold wrapInt32
  omega

theorem wrapInt32_succ_ne_pred (c : Int) : wrapInt32 (c + 1) ≠ wrapInt32 (c - 1) := by
  unfold wrapInt32
  omega

/-- The count after one `update_rot`, by cases. -/
theorem update_rot_count (e : Encoder2) :
    (update_rot e).rot_count
      = if e.rot_state = 1 ∧ e.rot_a_val = 0 ∧ e.rot_b_val = 0 then
          wrapInt32 (e.rot_count + 1)
        else if e.rot_state = 11 ∧ e.rot_a_val = 0 ∧ e.rot_b_val = 0 then
          wrapInt32 (e.rot_count - 1)
        else e.rot_count := by
  obtain ⟨c, a, b, s, pa, pb⟩ := e
  by_cases h0 : s = 0
  · subst h0
    by_cases ha : a = 0 <;> by_cases hb : b = 0 <;> simp [update_rot, ha, hb]
  by_cases h1 : s = 1
  · subst h1
    by_cases ha : a = 0 <;> by_cases hb : b = 0 <;> simp [update_rot, ha, hb]
  by_cases h2 : s = 2
  · subst h2
    by_cases hb : b = 0 <;> simp [update_rot, hb]
  by_cases h3 : s = 3
  · subst h3
    by_cases ha : a = 0 <;> simp [update_rot, ha]
  by_cases h11 : s = 11
  · subst h11
    by_cases ha : a = 0 <;> by_cases hb : b = 0 <;> simp [update_rot, ha, hb]
  by_cases h12 : s = 12
  · subst h12
    by_cases ha : a = 0 <;> simp [update_rot, ha]
  by_cases h13 : s = 13
  · subst h13
    by_cases hb : b = 0 <;> simp [update_rot, hb]
  simp [update_rot, h0, h1, h2, h3, h11, h12, h13]

/-- C13: one `update_rot` step increments the accumulator (as an `int`) and moves
to CW_2 when the state is CW_1 with A and B both low, decrements it and moves to
CCW_2 when the state is CCW_1 with A and B both low, and leaves it unchanged in
every other case; so the accumulator is incremented exactly in the first case and
decremented exactly in the second, for every state value and all cached levels. -/
theorem update_rot_count_change (e : Encoder2) :
    (e.rot_state = 1 ∧ e.rot_a_val = 0 ∧ e.rot_b_val = 0 →
      (update_rot e).rot_count = wrapInt32 (e.rot_count + 1)
      ∧ (update_rot e).rot_state = 2)
    ∧ (e.rot_state = 11 ∧ e.rot_a_val = 0 ∧ e.rot_b_val = 0 →
      (update_rot e).rot_count = wrapInt32 (e.rot_count - 1)
      ∧ (update_rot e).rot_state = 12)
    ∧ (¬ (e.rot_state = 1 ∧ e.rot_a_val = 0 ∧ e.rot_b_val = 0) →
      ¬ (e.rot_state = 11 ∧ e.rot_a_val = 0 ∧ e.rot_b_val = 0) →
      (update_rot e).rot_count = e.rot_count)
    ∧ ((update_rot e).rot_count = wrapInt32 (e.rot_count + 1)
      ↔ e.rot_state = 1 ∧ e.rot_a_val = 0 ∧ e.rot_b_val = 0)
    ∧ ((update_rot e).rot_count = wrapInt32 (e.rot_count - 1)
      ↔ e.rot_state = 11 ∧ e.rot_a_val = 0 ∧ e.rot_b_val = 0)
    ∧ (INT_MIN ≤ e.rot_count → e.rot_count < INT_MAX →
      wrapInt32 (e.rot_count + 1) = e.rot_count + 1)
    ∧ (INT_MIN < e.rot_count → e.rot_count ≤ INT_MAX →
      wrapInt32 (e.rot_count - 1) = e.rot_count - 1) := by
  refine ⟨?_, ?_, ?_, ?_, ?_, ?_, ?_⟩
  · rintro ⟨h1, h2, h3⟩
    simp [update_rot, h1, h2, h3]
  · rintro ⟨h1, h2, h3⟩
    simp [update_rot, h1, h2, h3]
  · intro h1 h2
    rw [update_rot_count, if_neg h1, if_neg h2]
  · rw [update_rot_count]
    constructor
    · intro h
      by_contra hn
      rw [if_neg hn] at h
      split_ifs at h
      · exact wrapInt32_succ_ne_pred _ h.symm
      · exact wrapInt32_succ_ne _ h.symm
    · intro h
      rw [if_pos h]
  · rw [update_rot_count]
    constructor
    · intro h
      by_contra hn
      rw [if_neg hn] at h
      split_ifs at h with h1
      · exact wrapInt32_succ_ne_pred _ h
      · exact wrapInt32_pred_ne _ h.symm
    · intro h
      have h1 : ¬ (e.rot_state = 1 ∧ e.rot_a_val = 0 ∧ e.rot_b_val = 0) := by
        intro hc
        rw [h.1] at hc
        exact absurd hc.1 (by decide)
      rw [if_neg h1, if_pos h]
  · intro hlo hhi
    apply wrapInt32_of_range
    · unfold INT_MIN at *; omega
    · unfold INT_MAX at *; omega
  · intro hlo hhi
    apply wrapInt32_of_range
    · unfold INT_MIN at *; omega
    · unfold INT_MAX at *; omega

/-- C15: from IDLE the two guards are checked one after the other, the A guard
last: B low with A high gives CW_1, A low gives CCW_1 whether or not B is low
(also with both low), both high stays in IDLE; the accumulator is unchanged. -/
theorem update_rot_from_idle (e : Encoder2) (h0 : e.rot_state = 0) :
    (e.rot_b_val = 0 → e.rot_a_val ≠ 0 → (update_rot e).rot_state = 1)
    ∧ (e.rot_a_val = 0 → (update_rot e).rot_state = 11)
    ∧ (e.rot_a_val = 0 → e.rot_b_val = 0 → (update_rot e).rot_state = 11)
    ∧ (e.rot_a_val ≠ 0 → e.rot_b_val ≠ 0 → (update_rot e).rot_state = 0)
    ∧ (update_rot e).rot_count = e.rot_count := by
  refine ⟨?_, ?_, ?_, ?_, ?_⟩
  · intro hb ha
    simp [update_rot, h0, hb, ha]
  · intro ha
    by_cases hb : e.rot_b_val = 0 <;> simp [update_rot, h0, hb, ha]
  · intro ha hb
    simp [update_rot, h0, hb, ha]
  · intro ha hb
    simp [update_rot, h0, hb, ha]
  · rw [update_rot_count, if_neg (by rw [h0]; simp), if_neg (by rw [h0]; simp)]

/-- The IDLE step on a decoder with both cached levels low: the state written by
the B guard (CW_1) is overwritten by the A guard (CCW_1). -/
theorem update_rot_from_idle_witness :
    ({ Encoder2.new 2 3 with rot_a_val := 0, rot_b_val := 0 } : Encoder2).rot_state = 0
    ∧ (update_rot { Encoder2.new 2 3 with rot_a_val := 0, rot_b_val := 0 }).rot_state = 11
    ∧ (update_rot { Encoder2.new 2 3 with rot_a_val := 0, rot_b_val := 0 }).rot_count = 0 :=
  ⟨rfl,
    (update_rot_from_idle { Encoder2.new 2 3 with rot_a_val := 0, rot_b_val := 0 }
      rfl).2.1 rfl,
    (update_rot_from_idle { Encoder2.new 2 3 with rot_a_val := 0, rot_b_val := 0 }
      rfl).2.2.2.2⟩

/-- C16: `update_rot` holds (state and accumulator, indeed the whole decoder,
unchanged) in CW_1 with A high and B low or A low and B high, in CW_2 with B low,
in CW_3 with A low, in CCW_1 with A low and B high or A high and B low, in CCW_2
with A low, in CCW_3 with B low, and in IDLE with both high; and CW_2 goes to CW_3
exactly when B is high, CW_3 to IDLE exactly when A is high, CCW_2 to CCW_3
exactly when A is high, CCW_3 to IDLE exactly when B is high. -/
theorem update_rot_hold_and_guards (e : Encoder2) :
    (e.rot_state = 1 → e.rot_a_val ≠ 0 → e.rot_b_val = 0 → update_rot e = e)
    ∧ (e.rot_state = 1 → e.rot_a_val = 0 → e.rot_b_val ≠ 0 → update_rot e = e)
    ∧ (e.rot_state = 2 → e.rot_b_val = 0 → update_rot e = e)
    ∧ (e.rot_state = 3 → e.rot_a_val = 0 → update_rot e = e)
    ∧ (e.rot_state = 11 → e.rot_a_val = 0 → e.rot_b_val ≠ 0 → update_rot e = e)
    ∧ (e.rot_state = 11 → e.rot_a_val ≠ 0 → e.rot_b_val = 0 → update_rot e = e)
    ∧ (e.rot_state = 12 → e.rot_a_val = 0 → update_rot e = e)
    ∧ (e.rot_state = 13 → e.rot_b_val = 0 → update_rot e = e)
    ∧ (e.rot_state = 0 → e.rot_a_val ≠ 0 → e.rot_b_val ≠ 0 → update_rot e = e)
    ∧ (e.rot_state = 2 → ((update_rot e).rot_state = 3 ↔ e.rot_b_val ≠ 0))
    ∧ (e.rot_state = 3 → ((update_rot e).rot_state = 0 ↔ e.rot_a_val ≠ 0))
    ∧ (e.rot_state = 12 → ((update_rot e).rot_state = 13 ↔ e.rot_a_val ≠ 0))
    ∧ (e.rot_state = 13 → ((update_rot e).rot_state = 0 ↔ e.rot_b_val ≠ 0)) := by
  refine ⟨?_, ?_, ?_, ?_, ?_, ?_, ?_, ?_, ?_, ?_, ?_, ?_, ?_⟩
  · intro hs ha hb; simp [update_rot, hs, ha, hb]
  · intro hs ha hb; simp [update_rot, hs, ha, hb]
  · intro hs hb; simp [update_rot, hs, hb]
  · intro hs ha; simp [update_rot, hs, ha]
  · intro hs ha hb; simp [update_rot, hs, ha, hb]
  · intro hs ha hb; simp [update_rot, hs, ha, hb]
  · intro hs ha; simp [update_rot, hs, ha]
  · intro hs hb; simp [update_rot, hs, hb]
  · intro hs ha hb
    cases e
    simp_all [update_rot]
  · intro hs
    by_cases hb : e.rot_b_val = 0 <;> simp [update_rot, hs, hb]
  · intro hs
    by_cases ha : e.rot_a_val = 0 <;> simp [update_rot, hs, ha]
  · intro hs
    by_cases ha : e.rot_a_val = 0 <;> simp [update_rot, hs, ha]
  · intro hs
    by_cases hb : e.rot_b_val = 0 <;> simp [update_rot, hs, hb]

/-- C19: from the constructed decoder the edges B low, A low, A high, B high leave
both cached levels high, the state in CW_3 and the accumulator at 1; one full
clockwise cycle fed after them ends in IDLE with the accumulator still at 1. -/
theorem reversed_half_turn_desync :
    ((Encoder2.new 2 3).feed reversed_half_turn).rot_a_val = 1
    ∧ ((Encoder2.new 2 3).feed reversed_half_turn).rot_b_val = 1
    ∧ ((Encoder2.new 2 3).feed reversed_half_turn).rot_state = 3
    ∧ ((Encoder2.new 2 3).feed reversed_half_turn).rot_count = 1
    ∧ ((Encoder2.new 2 3).feed (reversed_half_turn ++ cw_cycle)).rot_state = 0
    ∧ ((Encoder2.new 2 3).feed (reversed_half_turn ++ cw_cycle)).rot_count = 1 := by
  decide

end DecoderSteps

/-! ## Quadrature decoder: sequences of edges -/

section DecoderRuns
open Encoder2

theorem feed_nil (e : Encoder2) : e.feed [] = e := rfl

theorem feed_cons (e : Encoder2) (x : Edge) (xs : List Edge) :
    e.feed (x :: xs) = (e.dispatch x).feed xs := rfl

theorem feed_append (e : Encoder2) (xs ys : List Edge) :
    e.feed (xs ++ ys) = (e.feed xs).feed ys := by
  simp [feed, List.foldl_append]

/-- A step of `update_rot` that changes the count ends in CW_2 or CCW_2. -/
theorem update_rot_count_or_state (e : Encoder2) :
    (update_rot e).rot_count = e.rot_count
    ∨ (update_rot e).rot_state = 2 ∨ (update_rot e).rot_state = 12 := by
  obtain ⟨c, a, b, s, pa, pb⟩ := e
  by_cases h1 : s = 1
  · subst h1
    by_cases ha : a = 0 <;> by_cases hb : b = 0 <;> simp [update_rot, ha, hb]
  by_cases h11 : s = 11
  · subst h11
    by_cases ha : a = 0 <;> by_cases hb : b = 0 <;> simp [update_rot, ha, hb]
  left
  rw [update_rot_count, if_neg (fun h => h1 h.1), if_neg (fun h => h11 h.1)]

/-- In the second half of an arc (CW_2, CW_3, CCW_2, CCW_3) a step of `update_rot`
keeps the count, and the next state is IDLE or again in the second half. -/
theorem update_rot_second_half (e : Encoder2)
    (h : e.rot_state = 2 ∨ e.rot_state = 3 ∨ e.rot_state = 12 ∨ e.rot_state = 13) :
    (update_rot e).rot_count = e.rot_count
    ∧ ((update_rot e).rot_state = 0 ∨ (update_rot e).rot_state = 2
      ∨ (update_rot e).rot_state = 3 ∨ (update_rot e).rot_state = 12
      ∨ (update_rot e).rot_state = 13) := by
  obtain ⟨c, a, b, s, pa, pb⟩ := e
  rcases h with h | h | h | h <;> simp only [] at h <;> subst h
  · by_cases hb : b = 0 <;> simp [update_rot, hb]
  · by_cases ha : a = 0 <;> simp [update_rot, ha]
  · by_cases ha : a = 0 <;> simp [update_rot, ha]
  · by_cases hb : b = 0 <;> simp [update_rot, hb]

theorem dispatch_count_or_state (e : Encoder2) (x : Edge) :
    (e.dispatch x).rot_count = e.rot_count
    ∨ (e.dispatch x).rot_state = 2 ∨ (e.dispatch x).rot_state = 12 := by
  cases x with
  | A level => cases level <;> exact update_rot_count_or_state _
  | B level => cases level <;> exact update_rot_count_or_state _

theorem dispatch_second_half (e : Encoder2) (x : Edge)
    (h : e.rot_state = 2 ∨ e.rot_state = 3 ∨ e.rot_state = 12 ∨ e.rot_state = 13) :
    (e.dispatch x).rot_count = e.rot_count
    ∧ ((e.dispatch x).rot_state = 0 ∨ (e.dispatch x).rot_state = 2
      ∨ (e.dispatch x).rot_state = 3 ∨ (e.dispatch x).rot_state = 12
      ∨ (e.dispatch x).rot_state = 13) := by
  cases x with
  | A level => cases level <;> exact update_rot_second_half _ h
  | B level => cases level <;> exact update_rot_second_half _ h

/-- Fed from the second half of an arc, a run that never shows IDLE stays in the
second half. -/
theorem feed_second_half (es : List Edge) :
    ∀ e : Encoder2,
      (e.rot_state = 2 ∨ e.rot_state = 3 ∨ e.rot_state = 12 ∨ e.rot_state = 13) →
      (∀ k, k ≤ es.length → (e.feed (es.take k)).rot_state ≠ 0) →
      ((e.feed es).rot_state = 2 ∨ (e.feed es).rot_state = 3
        ∨ (e.feed es).rot_state = 12 ∨ (e.feed es).rot_state = 13) := by
  induction es with
  | nil => intro e h _; exact h
  | cons x xs ih =>
    intro e h hidle
    rw [feed_cons]
    apply ih
    · have h1 := hidle 1 (by simp)
      have h1a : (e.dispatch x).rot_state ≠ 0 := h1
      rcases (dispatch_second_half e x h).2 with h0 | hrest
      · exact absurd h0 h1a
      · exact hrest
    · intro k hk
      have := hidle (k + 1) (by simp; omega)
      exact this

/-- After a step that changes the count, from any decoder state, no later step
changes the count before the state has shown IDLE. -/
theorem count_change_needs_idle (e : Encoder2) (x y : Edge) (es : List Edge)
    (hx : (e.dispatch x).rot_count ≠ e.rot_count)
    (hidle : ∀ k, k ≤ es.length → ((e.dispatch x).feed (es.take k)).rot_state ≠ 0) :
    (((e.dispatch x).feed es).dispatch y).rot_count = ((e.dispatch x).feed es).rot_count := by
  have h2 : (e.dispatch x).rot_state = 2 ∨ (e.dispatch x).rot_state = 3
      ∨ (e.dispatch x).rot_state = 12 ∨ (e.dispatch x).rot_state = 13 := by
    rcases dispatch_count_or_state e x with h | h | h
    · exact absurd h hx
    · exact Or.inl h
    · exact Or.inr (Or.inr (Or.inl h))
  exact (dispatch_second_half _ y (feed_second_half es _ h2 hidle)).1

/-- C14: in every run from the constructed decoder, after a step that changes the
accumulator no later step changes it again as long as the state machine has not
shown IDLE (`rot_state = 0`) in between. -/
theorem count_changes_once_between_idles (pa pb : Int) (es1 es2 : List Edge)
    (x y : Edge)
    (hx : (((Encoder2.new pa pb).feed es1).dispatch x).rot_count
      ≠ ((Encoder2.new pa pb).feed es1).rot_count)
    (hidle : ∀ k, k ≤ es2.length →
      ((((Encoder2.new pa pb).feed es1).dispatch x).feed (es2.take k)).rot_state ≠ 0) :
    (((((Encoder2.new pa pb).feed es1).dispatch x).feed es2).dispatch y).rot_count
      = ((((Encoder2.new pa pb).feed es1).dispatch x).feed es2).rot_count :=
  count_change_needs_idle _ x y es2 hx hidle

/-- The run B low, then A low (count changes), B high, and an extra A low before
A high: the extra edge arrives in CW_3 and changes nothing. -/
theorem count_changes_once_between_idles_witness :
    (((Encoder2.new 2 3).feed [Edge.B false]).dispatch (Edge.A false)).rot_count = 1
    ∧ (((((Encoder2.new 2 3).feed [Edge.B false]).dispatch (Edge.A false)).feed
        [Edge.B true]).dispatch (Edge.A false)).rot_count = 1 :=
  have hidle : ∀ k, k ≤ [Edge.B true].length →
      ((((Encoder2.new 2 3).feed [Edge.B false]).dispatch (Edge.A false)).feed
        ([Edge.B true].take k)).rot_state ≠ 0 := by
    intro k hk
    have hk1 : k ≤ 1 := hk
    interval_cases k <;> decide
  ⟨by decide,
    (count_changes_once_between_idles 2 3 [Edge.B false] [Edge.B true] (Edge.A false)
      (Edge.A false) (by decide) hidle).trans (by decide)⟩

end DecoderRuns

section Bounce
open Encoder2

/-- An edge on B while A is cached high, in IDLE with B high or in CW_1 with B
low: the count is kept, and the state is IDLE for a high sample, CW_1 for a low
one. -/
theorem bounce_step_B (e : Encoder2) (level : Bool) (ha : e.rot_a_val = 1)
    (h : (e.rot_state = 0 ∧ e.rot_b_val = 1) ∨ (e.rot_state = 1 ∧ e.rot_b_val = 0)) :
    (e.dispatch (Edge.B level)).rot_a_val = 1
    ∧ (e.dispatch (Edge.B level)).rot_count = e.rot_count
    ∧ (level = true → (e.dispatch (Edge.B level)).rot_state = 0
        ∧ (e.dispatch (Edge.B level)).rot_b_val = 1)
    ∧ (level = false → (e.dispatch (Edge.B level)).rot_state = 1
        ∧ (e.dispatch (Edge.B level)).rot_b_val = 0) := by
  obtain ⟨c, a, b, s, pa, pb⟩ := e
  simp only [] at ha h
  subst ha
  rcases h with ⟨hs, hb⟩ | ⟨hs, hb⟩ <;> subst hs <;> subst hb <;> cases level <;>
    simp [dispatch, isr_rot_b_change, update_rot]

/-- An edge on A while B is cached high, in IDLE with A high or in CCW_1 with A
low: the count is kept, and the state is IDLE for a high sample, CCW_1 for a low
one. -/
theorem bounce_step_A (e : Encoder2) (level : Bool) (hb : e.rot_b_val = 1)
    (h : (e.rot_state = 0 ∧ e.rot_a_val = 1) ∨ (e.rot_state = 11 ∧ e.rot_a_val = 0)) :
    (e.dispatch (Edge.A level)).rot_b_val = 1
    ∧ (e.dispatch (Edge.A level)).rot_count = e.rot_count
    ∧ (level = true → (e.dispatch (Edge.A level)).rot_state = 0
        ∧ (e.dispatch (Edge.A level)).rot_a_val = 1)
    ∧ (level = false → (e.dispatch (Edge.A level)).rot_state = 11
        ∧ (e.dispatch (Edge.A level)).rot_a_val = 0) := by
  obtain ⟨c, a, b, s, pa, pb⟩ := e
  simp only [] at hb h
  subst hb
  rcases h with ⟨hs, ha⟩ | ⟨hs, ha⟩ <;> subst hs <;> subst ha <;> cases level <;>
    simp [dispatch, isr_rot_a_change, update_rot]

/-- Any run of edges on B alone from IDLE with both levels high. -/
theorem bounce_run_B (e : Encoder2) (h0 : e.rot_state = 0) (ha : e.rot_a_val = 1)
    (hb : e.rot_b_val = 1) (levels : List Bool) :
    (e.feed (levels.map Edge.B)).rot_a_val = 1
    ∧ (e.feed (levels.map Edge.B)).rot_count = e.rot_count
    ∧ (((e.feed (levels.map Edge.B)).rot_state = 0
          ∧ (e.feed (levels.map Edge.B)).rot_b_val = 1)
        ∨ ((e.feed (levels.map Edge.B)).rot_state = 1
          ∧ (e.feed (levels.map Edge.B)).rot_b_val = 0))
    ∧ (levels.getLast? = some true → (e.feed (levels.map Edge.B)).rot_state = 0) := by
  induction levels using List.reverseRecOn with
  | nil => exact ⟨ha, rfl, Or.inl ⟨h0, hb⟩, fun h => h0⟩
  | append_singleton l x ih =>
    obtain ⟨iha, ihc, ihs, -⟩ := ih
    rw [List.map_append, feed_append]
    obtain ⟨sa, sc, st, sf⟩ := bounce_step_B (e.feed (l.map Edge.B)) x iha ihs
    refine ⟨sa, sc.trans ihc, ?_, ?_⟩
    · cases x
      · exact Or.inr (sf rfl)
      · exact Or.inl (st rfl)
    · intro hl
      have hx : x = true := by simpa using hl
      exact (st hx).1

/-- Any run of edges on A alone from IDLE with both levels high. -/
theorem bounce_run_A (e : Encoder2) (h0 : e.rot_state = 0) (ha : e.rot_a_val = 1)
    (hb : e.rot_b_val = 1) (levels : List Bool) :
    (e.feed (levels.map Edge.A)).rot_b_val = 1
    ∧ (e.feed (levels.map Edge.A)).rot_count = e.rot_count
    ∧ (((e.feed (levels.map Edge.A)).rot_state = 0
          ∧ (e.feed (levels.map Edge.A)).rot_a_val = 1)
        ∨ ((e.feed (levels.map Edge.A)).rot_state = 11
          ∧ (e.feed (levels.map Edge.A)).rot_a_val = 0))
    ∧ (levels.getLast? = some true → (e.feed (levels.map Edge.A)).rot_state = 0) := by
  induction levels using List.reverseRecOn with
  | nil => exact ⟨hb, rfl, Or.inl ⟨h0, ha⟩, fun h => h0⟩
  | append_singleton l x ih =>
    obtain ⟨ihb, ihc, ihs, -⟩ := ih
    rw [List.map_append, feed_append]
    obtain ⟨sb, sc, st, sf⟩ := bounce_step_A (e.feed (l.map Edge.A)) x ihb ihs
    refine ⟨sb, sc.trans ihc, ?_, ?_⟩
    · cases x
      · exact Or.inr (sf rfl)
      · exact Or.inl (st rfl)
    · intro hl
      have hx : x = true := by simpa using hl
      exact (st hx).1

/-- C17: from IDLE with both cached levels high, for every sequence of sampled
levels on one line alone (B with A never sampled, or A with B never sampled), after
every prefix of the sequence the accumulator has its initial value, and the state
is IDLE whenever the last level sampled so far is high. -/
theorem single_line_bounce_no_count (e : Encoder2) (h0 : e.rot_state = 0)
    (ha : e.rot_a_val = 1) (hb : e.rot_b_val = 1) (levels : List Bool) (k : Nat) :
    (e.feed ((levels.take k).map Edge.B)).rot_count = e.rot_count
    ∧ ((levels.take k).getLast? = some true →
        (e.feed ((levels.take k).map Edge.B)).rot_state = 0)
    ∧ (e.feed ((levels.take k).map Edge.A)).rot_count = e.rot_count
    ∧ ((levels.take k).getLast? = some true →
        (e.feed ((levels.take k).map Edge.A)).rot_state = 0) :=
  ⟨(bounce_run_B e h0 ha hb (levels.take k)).2.1,
    (bounce_run_B e h0 ha hb (levels.take k)).2.2.2,
    (bounce_run_A e h0 ha hb (levels.take k)).2.1,
    (bounce_run_A e h0 ha hb (levels.take k)).2.2.2⟩

/-- Bounce low, low, high, low, high on one line of the constructed decoder: after
all five edges, and after the first three, the count is 0 and the state IDLE. -/
theorem single_line_bounce_no_count_witness :
    ((Encoder2.new 2 3).feed
        ([false, false, true, false, true].map Edge.B)).rot_count = 0
    ∧ ((Encoder2.new 2 3).feed
        ([false, false, true, false, true].map Edge.B)).rot_state = 0
    ∧ ((Encoder2.new 2 3).feed
        (([false, false, true, false, true].take 3).map Edge.A)).rot_count = 0
    ∧ ((Encoder2.new 2 3).feed
        (([false, false, true, false, true].take 3).map Edge.A)).rot_state = 0 :=
  ⟨(single_line_bounce_no_count (Encoder2.new 2 3) rfl rfl rfl
      [false, false, true, false, true] 5).1,
    (single_line_bounce_no_count (Encoder2.new 2 3) rfl rfl rfl
      [false, false, true, false, true] 5).2.1 rfl,
    (single_line_bounce_no_count (Encoder2.new 2 3) rfl rfl rfl
      [false, false, true, false, true] 3).2.2.1,
    (single_line_bounce_no_count (Encoder2.new 2 3) rfl rfl rfl
      [false, false, true, false, true] 3).2.2.2 rfl⟩

end Bounce

/-! ## Frequency store: frame of the store, recall on a stored prefix -/

section StoreFrame

/-- The store loop, entered at or before the first invalid entry `j`, leaves every
byte from offset `j * 4` on as it was. -/
theorem store_loop_byte_above (fr : Freqs) (j : Nat) (fuel : Nat) :
    ∀ (i : Nat) (m : Medium), 1 ≤ i → i ≤ j →
      (∀ t, i ≤ t → t < j → is_valid_freq (fr t) = true) →
      is_valid_freq (fr j) = false →
      ∀ a, j * 4 ≤ a → store_loop fr fuel i m a = m a := by
  induction fuel with
  | zero => intro i m _ _ _ _ a _; rfl
  | succ fuel ih =>
    intro i m hi hij hv hinv a ha
    simp only [store_loop]
    split
    · by_cases hji : i = j
      · subst hji
        rw [hinv]
        simp only [Bool.false_eq_true, if_false]
        exact EEPROM_put_byte_outside m _ _ a (Or.inr (by omega))
      · rw [if_pos (hv i (le_refl i) (by omega))]
        rw [ih (i + 1) _ (by omega) (by omega) (fun t h1 h2 => hv t (by omega) h2)
          hinv a ha]
        exact EEPROM_put_byte_outside m _ _ a (Or.inr (by omega))
    · rfl

/-- C11: when the first invalid entry of the list is at index `j` (`1 ≤ j ≤ 9`),
after `store_frequencies` the word at offset `(j - 1) * 4` is the sentinel
`0xFFFFFFFF` and every byte of the medium at an offset `≥ j * 4` is what it was
before the call. -/
theorem store_stops_at_first_invalid (m : Medium) (fr : Freqs) (j : Nat)
    (hj1 : 1 ≤ j) (hj9 : j ≤ 9)
    (hv : ∀ t, 1 ≤ t → t < j → is_valid_freq (fr t) = true)
    (hinv : is_valid_freq (fr j) = false) :
    EEPROM_get (store_frequencies fr m) ((j - 1) * 4) = 4294967295
    ∧ ∀ a, j * 4 ≤ a → store_frequencies fr m a = m a :=
  ⟨store_loop_sentinel fr j hj9 10 1 m (le_refl 1) hj1 (by omega) hv hinv,
    store_loop_byte_above fr j 10 1 m (le_refl 1) hj1 hv hinv⟩

/-- The list 144800000, 145200000, 999999999 stored over a medium full of valid
words: the sentinel is at offset 8, the word at offset 12 is still 144710000. -/
theorem store_stops_at_first_invalid_witness :
    EEPROM_get (store_frequencies two_valid full_medium) 8 = 4294967295
    ∧ store_frequencies two_valid full_medium 12 = full_medium 12
    ∧ EEPROM_get (store_frequencies two_valid full_medium) 12 = 144710000 :=
  have hv : ∀ t, 1 ≤ t → t < 3 → is_valid_freq (two_valid t) = true := by
    intro t h1 h2
    interval_cases t <;> decide
  have h := store_stops_at_first_invalid full_medium two_valid 3 (by decide)
    (by decide) hv (by decide)
  ⟨h.1, h.2 12 (by decide), by decide⟩

/-- The recall with the medium threaded through computes the same count and array
as `recall_loop` and hands the medium back as it got it. -/
theorem recall_loop_st_eq (fuel : Nat) :
    ∀ (ii : Nat) (fr : Freqs) (m : Medium),
      recall_loop_st fuel ii fr m
        = ((recall_loop m fuel ii fr).1, (recall_loop m fuel ii fr).2, m) := by
  induction fuel with
  | zero => intro ii fr m; rfl
  | succ fuel ih =>
    intro ii fr m
    simp only [recall_loop_st, recall_loop, EEPROM_get_st]
    split
    · split
      · exact ih _ _ _
      · split <;> rfl
    · rfl

theorem recall_frequencies_st_eq (m : Medium) (fr : Freqs) :
    recall_frequencies_st m fr
      = ((recall_frequencies m fr).1, (recall_frequencies m fr).2, m) :=
  recall_loop_st_eq 10 1 fr m

/-- C18: on a medium whose words at offsets `0, 4, .., (j - 2) * 4` are valid and
whose word at offset `(j - 1) * 4` is invalid (`2 ≤ j ≤ 9`), `recall_frequencies`
returns `j - 1`, sets the output entries `1 .. j - 1` to those words, sets entry `j`
to 0, leaves the entries `j + 1 .. 9` (every other entry) as they were, and leaves
the medium as it was. -/
theorem recall_stops_at_first_invalid (m : Medium) (out : Freqs) (j : Nat)
    (hj2 : 2 ≤ j) (hj9 : j ≤ 9)
    (hv : ∀ t, 1 ≤ t → t < j → is_valid_freq (EEPROM_get m ((t - 1) * 4)) = true)
    (hinv : is_valid_freq (EEPROM_get m ((j - 1) * 4)) = false) :
    (recall_frequencies_st m out).1 = j - 1
    ∧ (∀ t, 1 ≤ t → t < j →
        (recall_frequencies_st m out).2.1 t = EEPROM_get m ((t - 1) * 4))
    ∧ (recall_frequencies_st m out).2.1 j = 0
    ∧ (∀ t, j < t → (recall_frequencies_st m out).2.1 t = out t)
    ∧ (recall_frequencies_st m out).2.2 = m
    ∧ (recall_frequencies m out).1 = (recall_frequencies_st m out).1
    ∧ (recall_frequencies m out).2 = (recall_frequencies_st m out).2.1 := by
  obtain ⟨hc, hf⟩ := recall_loop_stop m j hj2 hj9 10 1 out (le_refl 1) (by omega)
    (by omega) hv hinv
  have hf1 : ∀ t, (recall_frequencies m out).2 t
      = if 1 ≤ t ∧ t < j then EEPROM_get m ((t - 1) * 4)
        else if t = j then 0 else out t := hf
  rw [recall_frequencies_st_eq]
  refine ⟨hc, ?_, ?_, ?_, rfl, rfl, rfl⟩
  · intro t h1 h2
    show (recall_frequencies m out).2 t = _
    rw [hf1 t, if_pos ⟨h1, h2⟩]
  · show (recall_frequencies m out).2 j = 0
    rw [hf1 j, if_neg (by omega), if_pos rfl]
  · intro t ht
    show (recall_frequencies m out).2 t = out t
    rw [hf1 t, if_neg (by omega), if_neg (by omega)]

/-- The medium left by storing 144800000, 145200000, 999999999 over valid words:
the recall returns 2, the two values, a zero at entry 3, and entry 4 untouched. -/
theorem recall_stops_at_first_invalid_witness :
    (recall_frequencies_st (store_frequencies two_valid full_medium) nine_valid).1 = 2
    ∧ (recall_frequencies_st (store_frequencies two_valid full_medium) nine_valid).2.1 1
        = 144800000
    ∧ (recall_frequencies_st (store_frequencies two_valid full_medium) nine_valid).2.1 2
        = 145200000
    ∧ (recall_frequencies_st (store_frequencies two_valid full_medium) nine_valid).2.1 3
        = 0
    ∧ (recall_frequencies_st (store_frequencies two_valid full_medium) nine_valid).2.1 4
        = 144400000 :=
  have hv : ∀ t, 1 ≤ t → t < 3 → is_valid_freq
      (EEPROM_get (store_frequencies two_valid full_medium) ((t - 1) * 4)) = true := by
    intro t h1 h2
    interval_cases t <;> decide
  have h := recall_stops_at_first_invalid (store_frequencies two_valid full_medium)
    nine_valid 3 (by decide) (by decide) hv (by decide)
  ⟨h.1, (h.2.1 1 (by decide) (by decide)).trans (by decide),
    (h.2.1 2 (by decide) (by decide)).trans (by decide), h.2.2.1,
    (h.2.2.2.1 4 (by decide)).trans (by decide)⟩

end StoreFrame

/-! ## Foreground accessors and the interrupt flag -/

section Critical

/-- The step by step run of `read` computes what `Encoder2.read` computes. -/
theorem exec_read_ops (m : Cpu) :
    ((Run.start m).exec read_ops).n = (Encoder2.read m).1
    ∧ ((Run.start m).exec read_ops).cpu = (Encoder2.read m).2 :=
  ⟨rfl, rfl⟩

/-- The step by step run of `write` computes what `Encoder2.write` computes. -/
theorem exec_write_ops (m : Cpu) (n : Int) :
    ((Run.start m).exec (write_ops n)).cpu = Encoder2.write n m :=
  rfl

/-- C12, as claimed, fails when interrupts are already off at the call: `read` and
`write` return with the flag on, not with the value it had before. -/
theorem accessors_do_not_restore_flag :
    masked_cpu.irq_enabled = false
    ∧ (Encoder2.read masked_cpu).2.irq_enabled ≠ masked_cpu.irq_enabled
    ∧ (Encoder2.write 5 masked_cpu).irq_enabled ≠ masked_cpu.irq_enabled := by
  decide

/-- C12, amended: `read()` and `write(n)` make their one access to the accumulator
with the interrupt flag off, and return with the flag on whatever its value at the
call; so the flag has its value of before the call exactly when it was on. -/
theorem accessors_mask_then_enable (m : Cpu) (n : Int) :
    ((Run.start m).exec read_ops).access_flags = [false]
    ∧ ((Run.start m).exec (write_ops n)).access_flags = [false]
    ∧ (Encoder2.read m).2.irq_enabled = true
    ∧ (Encoder2.write n m).irq_enabled = true
    ∧ ((Encoder2.read m).2.irq_enabled = m.irq_enabled ↔ m.irq_enabled = true)
    ∧ ((Encoder2.write n m).irq_enabled = m.irq_enabled ↔ m.irq_enabled = true) := by
  refine ⟨rfl, rfl, rfl, rfl, ?_, ?_⟩
  · show true = m.irq_enabled ↔ m.irq_enabled = true
    exact eq_comm
  · show true = m.irq_enabled ↔ m.irq_enabled = true
    exact eq_comm

end Critical
end Rox2x
